import Mathlib

/-!
# Verification of the `ConnectionPool` class (`src/database/pool.ts`)

A shallow embedding of the connection-pool manager.  Timestamps are
milliseconds as `Nat`; the opaque `PrismaClient` handle is identified by a
`Nat` (`clientId`); the external effects of `$connect`/`$disconnect`/
`$queryRaw` are abstracted by per-connection / per-call flags
(`disconnectFails`, `probeOk`).

The embedding follows the single-threaded cooperative (JavaScript event
loop) semantics of the source: each public method body runs to completion
(or to its first genuinely-asynchronous await) without interleaving.  Two
ghost components track caller-visible facts the TypeScript state does not
store explicitly:

* `holders` on a connection — the callers that currently hold the client
  handle as a live acquisition (granted by `acquire()` or by a release
  hand-off whose promise was still pending, and not yet given back);
* `outcomes` — for each waiter (keyed by a unique waiter id) every
  settlement attempt made on its promise, in order.  A JS promise settles
  once, so the *first* entry for an id (`outcomeOf`) is the outcome its
  caller observes; later entries are the no-op `resolve`/`reject` calls the
  source makes on already-settled promises.
-/

namespace ConnectionPool

/-- `ConnectionPoolConfig` (pool.ts lines 9-14): `timeout` and `idleTimeout`
are optional; `none` models `undefined`. -/
structure Config where
  size : Nat
  databaseUrl : String
  timeout : Option Nat
  idleTimeout : Option Nat
deriving DecidableEq

/-- JavaScript `x || d` on an optional numeric field: `undefined` and `0`
are both falsy and fall through to the default. -/
def jsOr : Option Nat → Nat → Nat
  | none, d => d
  | some t, d => if t = 0 then d else t

/-- `PoolStatus` (pool.ts lines 16-21). -/
structure PoolStatus where
  total : Nat
  active : Nat
  idle : Nat
  waiting : Nat
deriving DecidableEq

/-- `PoolConnection` (pool.ts lines 23-28) plus the environment flag
`disconnectFails` (whether `client.$disconnect()` rejects) and the ghost
`holders` list. -/
structure PoolConnection where
  clientId : Nat
  inUse : Bool
  lastUsed : Nat
  createdAt : Nat
  disconnectFails : Bool
  holders : List Nat
deriving DecidableEq

/-- One entry of `waitQueue` (pool.ts lines 33-37).  `id` is a ghost unique
identifier standing for the identity of the queued promise callbacks. -/
structure Waiter where
  id : Nat
  caller : Nat
  timestamp : Nat
deriving DecidableEq

/-- How a waiter's promise was settled: resolved with a client, rejected
with `Error('Connection pool timeout')`, or rejected with
`Error('Connection pool is closing')`. -/
inductive Outcome where
  | fulfilled (clientId : Nat)
  | timedOut
  | poolClosing
deriving DecidableEq

/-- The mutable state of a `ConnectionPool` instance (pool.ts lines 30-46),
plus ghost bookkeeping (`nextClientId`, `nextWaiterId`, `outcomes`). -/
structure PoolState where
  config : Config
  connections : List PoolConnection
  waitQueue : List Waiter
  initialized : Bool
  nextClientId : Nat
  nextWaiterId : Nat
  outcomes : List (Nat × Outcome)
deriving DecidableEq

/-- The constructor (pool.ts lines 40-46): spreads the given config and
replaces falsy `timeout` / `idleTimeout` with the defaults 30000 / 60000. -/
def mkConnectionPool (cfg : Config) : PoolState :=
  { config := { cfg with
      timeout := some (jsOr cfg.timeout 30000)
      idleTimeout := some (jsOr cfg.idleTimeout 60000) }
    connections := []
    waitQueue := []
    initialized := false
    nextClientId := 0
    nextWaiterId := 0
    outcomes := [] }

/-- `getStatus()` (pool.ts lines 218-228). -/
def getStatus (st : PoolState) : PoolStatus :=
  { total := st.connections.length
    active := (st.connections.filter (fun c => c.inUse)).length
    idle := (st.connections.filter (fun c => !c.inUse)).length
    waiting := st.waitQueue.length }

/-- The ids of the currently queued waiters, oldest first. -/
def queueIds (st : PoolState) : List Nat :=
  st.waitQueue.map (fun w => w.id)

/-- The outcome a waiter's caller observes: the first settlement of its
promise (a JS promise ignores later settlement attempts). -/
def outcomeOf (st : PoolState) (wid : Nat) : Option Outcome :=
  st.outcomes.lookup wid

/-- `this.connections.find(conn => !conn.inUse)` followed by the in-place
grant (pool.ts lines 78-84): marks the first idle connection busy, stamps
`lastUsed`, and (ghost) hands the client to caller `k`.  Returns the updated
list and the granted `clientId`, or `none` when every connection is busy. -/
def grantFirstIdle (k now : Nat) : List PoolConnection → Option (List PoolConnection × Nat)
  | [] => none
  | c :: rest =>
    if c.inUse then
      match grantFirstIdle k now rest with
      | none => none
      | some (rest', cid) => some (c :: rest', cid)
    else
      some ({ c with inUse := true, lastUsed := now, holders := c.holders ++ [k] } :: rest,
            c.clientId)

/-- Result of `acquire()`: a synchronous grant, or suspension in the wait
queue (the returned number is the new waiter's ghost id). -/
inductive AcquireResult where
  | granted (clientId : Nat)
  | enqueued (waiterId : Nat)
deriving DecidableEq

/-- `acquire()` (pool.ts lines 76-111) invoked by caller `k` at time `now`:
grant the first idle connection, otherwise push a waiter (with an armed
timeout timer) onto `waitQueue`. -/
def acquire (k now : Nat) (st : PoolState) : PoolState × AcquireResult :=
  match grantFirstIdle k now st.connections with
  | some (conns, cid) => ({ st with connections := conns }, .granted cid)
  | none =>
    ({ st with
        waitQueue := st.waitQueue ++ [{ id := st.nextWaiterId, caller := k, timestamp := now }]
        nextWaiterId := st.nextWaiterId + 1 },
     .enqueued st.nextWaiterId)

/-- Rewrites the first connection whose `clientId` is `cid` (the source's
`this.connections.find(conn => conn.client === client)` followed by in-place
mutation); `none` when no connection matches. -/
def updateFirstClient (cid : Nat) (f : PoolConnection → PoolConnection) :
    List PoolConnection → Option (List PoolConnection)
  | [] => none
  | c :: rest =>
    if c.clientId = cid then some (f c :: rest)
    else
      match updateFirstClient cid f rest with
      | none => none
      | some rest' => some (c :: rest')

/-- What `release()` did: warned about an unknown handle, parked the
connection idle, or handed it to the dequeued waiter. -/
inductive ReleaseResult where
  | unknownWarned
  | markedIdle
  | handedOff (waiterId : Nat)
deriving DecidableEq

/-- `release(client)` (pool.ts lines 116-135) invoked by caller `k` on the
handle `cid` at time `now`.  If the handle is unknown: warn and return.
Otherwise mark the record idle and stamp `lastUsed`; then, if the queue is
non-empty, shift the oldest waiter, set `inUse` back to `true` and resolve
the waiter with the same client.  Ghost: caller `k` gives the handle up, and
the dequeued waiter's caller receives it only if its promise is still
pending (resolving a settled promise is a no-op). -/
def release (k cid now : Nat) (st : PoolState) : PoolState × ReleaseResult :=
  match st.waitQueue with
  | [] =>
    match updateFirstClient cid
        (fun c =>
          { c with
            inUse := false
            lastUsed := now
            holders := c.holders.erase k })
        st.connections with
    | none => (st, .unknownWarned)
    | some conns => ({ st with connections := conns }, .markedIdle)
  | w :: rest =>
    match updateFirstClient cid
        (fun c =>
          { c with
            inUse := true
            lastUsed := now
            holders := c.holders.erase k ++
              (if outcomeOf st w.id = none then [w.caller] else []) })
        st.connections with
    | none => (st, .unknownWarned)
    | some conns =>
      ({ st with
          connections := conns
          waitQueue := rest
          outcomes := st.outcomes ++ [(w.id, .fulfilled cid)] },
       .handedOff w.id)

/-- Expiry of the acquire timer of waiter `wid` (pool.ts lines 88-97).  The
timer is armed exactly while the waiter is queued with a pending promise
(fulfilment and close both call `clearTimeout` through the stored wrapper).
The callback's `findIndex(item => item.resolve === resolve)` compares the
raw executor `resolve` against the stored *wrapper* function, which is never
equal, so the splice at lines 93-95 never runs and the waiter stays queued;
the `reject` settles the promise with `Error('Connection pool timeout')`. -/
def timeoutFire (wid : Nat) (st : PoolState) : PoolState :=
  if wid ∈ queueIds st ∧ outcomeOf st wid = none then
    { st with outcomes := st.outcomes ++ [(wid, .timedOut)] }
  else st

/-- One pass of the idle-cleanup interval callback (pool.ts lines 196-212).
`removeConnection` is invoked *without* `await`, and its splice sits after
`await client.$disconnect()`, so every splice is deferred to a microtask
after the loop finishes: the `this.connections.length > floor(size/2)` guard
always reads the pre-pass length, the loop iterates over the unmodified
list, and a connection whose `$disconnect` rejects is never spliced (the
`catch` in `removeConnection` swallows the error before the splice). -/
def cleanupPass (now : Nat) (st : PoolState) : PoolState :=
  let idleTimeout := jsOr st.config.idleTimeout 60000
  if st.connections.length > st.config.size / 2 then
    { st with
      connections := st.connections.filter
        (fun c => !(!c.inUse && decide (idleTimeout < now - c.lastUsed) && !c.disconnectFails)) }
  else st

/-- The connections `createConnection()` (pool.ts lines 152-174) appends
during `resize` growth: fresh clients, idle, stamped `now`. -/
def newConnections (n firstId now : Nat) : List PoolConnection :=
  (List.range n).map (fun i =>
    { clientId := firstId + i, inUse := false, lastUsed := now, createdAt := now,
      disconnectFails := false, holders := [] })

/-- The shrink loop of `resize` (pool.ts lines 283-288) as the JS array
iterator executes it: `i` is the iterator's next index.  `removeConnection`
is awaited here, so its splice lands before the next iteration; after a
splice at position `i` the iterator's next index `i + 1` addresses the
element after the one that slid into position `i`, skipping it.  A
connection whose `$disconnect` rejects is not spliced (the `catch` inside
`removeConnection`), but `removed` is incremented either way.
The iterator advances `i` by one per step and the list never grows, so the
loop makes at most `conns.length` steps; the structural `fuel` argument
(instantiated to the initial length in `resize`) only bounds that count. -/
def shrinkGo : Nat → List PoolConnection → Nat → Nat → Nat → List PoolConnection
  | 0, conns, _, _, _ => conns
  | fuel + 1, conns, i, removed, toRemove =>
    if h : i < conns.length then
      let c := conns.get ⟨i, h⟩
      if c.inUse = false ∧ removed < toRemove then
        if c.disconnectFails then
          shrinkGo fuel conns (i + 1) (removed + 1) toRemove
        else
          shrinkGo fuel (conns.eraseIdx i) (i + 1) (removed + 1) toRemove
      else
        shrinkGo fuel conns (i + 1) removed toRemove
    else conns

/-- `resize(newSize)` (pool.ts lines 269-293): grow by appending fresh
connections, or shrink by removing idle connections via the loop above;
`config.size` is updated unconditionally. -/
def resize (newSize now : Nat) (st : PoolState) : PoolState :=
  let currentSize := st.connections.length
  if newSize > currentSize then
    { st with
        connections := st.connections ++ newConnections (newSize - currentSize) st.nextClientId now
        nextClientId := st.nextClientId + (newSize - currentSize)
        config := { st.config with size := newSize } }
  else if newSize < currentSize then
    { st with
        connections := shrinkGo st.connections.length st.connections 0 0 (currentSize - newSize)
        config := { st.config with size := newSize } }
  else
    { st with config := { st.config with size := newSize } }

/-- `close()` (pool.ts lines 233-250).  Every queued waiter's `reject` is
called with `Error('Connection pool is closing')` (a no-op on an
already-settled promise) and the queue is cleared; then all clients are
disconnected concurrently and awaited through `Promise.all`.  When every
disconnect resolves, `connections` is cleared and `initialized` reset
(returned flag `true`); when any rejects, `Promise.all` rejects and
`close()` throws before reaching those assignments (flag `false`). -/
def closePool (st : PoolState) : PoolState × Bool :=
  let rejected := st.outcomes ++ st.waitQueue.map (fun w => (w.id, Outcome.poolClosing))
  if st.connections.all (fun c => !c.disconnectFails) then
    ({ st with
        waitQueue := []
        outcomes := rejected
        connections := []
        initialized := false },
     true)
  else
    ({ st with waitQueue := [], outcomes := rejected }, false)

/-- Result of `execute(fn)`: `fn`'s value (tagged with the client it ran
on), or the propagated error `fn` threw. -/
inductive ExecResult where
  | ok (clientId : Nat)
  | opFailed
deriving DecidableEq

/-- `execute(fn)` (pool.ts lines 140-147) on the path where `acquire()`
grants synchronously: run `fn` on the client (`fnOk` says whether it
returned or threw) and release the client in the `finally` block either
way; the result — value or rethrown error — is delivered only after
`release` has run.  When no connection is idle the caller suspends in the
wait queue and `execute` resumes only after a fulfilment or timeout; those
paths unfold through the event machine below, so this function returns
`none` for them. -/
def execute (k now : Nat) (fnOk : Bool) (st : PoolState) : Option (PoolState × ExecResult) :=
  match acquire k now st with
  | (st1, .granted cid) =>
    some ((release k cid now st1).1, if fnOk then .ok cid else .opFailed)
  | (_, .enqueued _) => none

/-- `healthy` / `degraded` / `unhealthy` (pool.ts line 299). -/
inductive HealthStatus where
  | healthy
  | degraded
  | unhealthy
deriving DecidableEq

/-- Whether the live probe `this.execute(client => client.$queryRaw...)`
(pool.ts lines 318-324) succeeds: the probe's `acquire()` returns
synchronously only when some connection is idle (otherwise the probe waits
in the queue and, with no other caller releasing, its timer expires), and
`probeOk` says whether the `SELECT 1` query itself succeeds. -/
def probeSucceeds (st : PoolState) (probeOk : Bool) : Bool :=
  st.connections.any (fun c => !c.inUse) && probeOk

/-- The error list `healthCheck()` accumulates (pool.ts lines 303-324),
computed from the status snapshot taken *before* the probe. -/
def healthErrors (st : PoolState) (probeOk : Bool) : List String :=
  (if st.initialized = false then ["Pool not initialized"] else []) ++
  (if (getStatus st).total = 0 then ["No connections in pool"] else []) ++
  (if (getStatus st).waiting > (getStatus st).total then ["High wait queue"] else []) ++
  (if probeSucceeds st probeOk then [] else ["Connection test failed"])

/-- `healthCheck()` (pool.ts lines 298-342): classify by the number of
accumulated errors — 0 `healthy`, 1-2 `degraded`, otherwise `unhealthy` —
and embed the error list in the result.  Total function: every failure mode
is an error entry, none is thrown. -/
def healthCheck (st : PoolState) (probeOk : Bool) : HealthStatus × List String :=
  let errors := healthErrors st probeOk
  (if errors.length = 0 then .healthy
   else if errors.length ≤ 2 then .degraded
   else .unhealthy,
   errors)

/-- The pool operations of the event machine: the public mutating calls and
the two timer callbacks.  `execute` is `acquireOp` followed (after `fn`) by
`releaseOp` of the granted client. -/
inductive Event where
  | acquireOp (caller now : Nat)
  | timeoutOp (waiterId : Nat)
  | releaseOp (caller clientId now : Nat)
  | cleanupOp (now : Nat)
  | resizeOp (newSize now : Nat)
  | closeOp
deriving DecidableEq

/-- One pool operation, state-transformer view. -/
def step (st : PoolState) : Event → PoolState
  | .acquireOp k now => (acquire k now st).1
  | .timeoutOp wid => timeoutFire wid st
  | .releaseOp k cid now => (release k cid now st).1
  | .cleanupOp now => cleanupPass now st
  | .resizeOp n now => resize n now st
  | .closeOp => (closePool st).1

/-- Run a sequence of pool operations. -/
def run (st : PoolState) : List Event → PoolState
  | [] => st
  | e :: es => run (step st e) es

/-- Exclusive-ownership invariant: every connection is held by at most one
caller, and an idle (`inUse = false`) connection is held by none. -/
def ownerInv (st : PoolState) : Prop :=
  ∀ c ∈ st.connections, c.holders.length ≤ 1 ∧ (c.inUse = false → c.holders = [])

instance (st : PoolState) : Decidable (ownerInv st) := by
  unfold ownerInv; infer_instance

/-- A release is protocol-compliant when the releasing caller currently
holds the handle it returns (releases of handles the pool does not know are
harmless and always allowed). -/
def compliantRelease (st : PoolState) : Event → Bool
  | .releaseOp k cid _ =>
    st.connections.all (fun c => !(c.clientId == cid) || c.holders.contains k)
  | _ => true

/-- Every release in the event sequence is made by the caller holding the
released handle at that point. -/
def compliantB (st : PoolState) : List Event → Bool
  | [] => true
  | e :: es => compliantRelease st e && compliantB (step st e) es

/-! ### Concrete pool states and operation sequences used as test vectors -/

/-- The effective configuration of a size-1 pool built with defaults. -/
def defaultConfig : Config :=
  { size := 1, databaseUrl := "", timeout := some 30000, idleTimeout := some 60000 }

/-- A freshly created, never-used idle connection. -/
def idleConnection (cid : Nat) : PoolConnection :=
  { clientId := cid, inUse := false, lastUsed := 0, createdAt := 0,
    disconnectFails := false, holders := [] }

/-- An initialized size-1 pool holding one idle connection. -/
def poolOfOne : PoolState :=
  { config := defaultConfig
    connections := [idleConnection 0]
    waitQueue := []
    initialized := true
    nextClientId := 1
    nextWaiterId := 0
    outcomes := [] }

/-- Caller 1 acquires and releases the only connection, caller 2 re-acquires
it, caller 3 queues, and then caller 1 releases the handle a second time:
the second release finds the record and hands it to caller 3 while caller 2
still holds it. -/
def doubleReleaseEvents : List Event :=
  [Event.acquireOp 1 0, Event.releaseOp 1 0 1, Event.acquireOp 2 2,
   Event.acquireOp 3 3, Event.releaseOp 1 0 4]

/-- Caller 1 holds the only connection, caller 2's acquire queues as waiter
0, and waiter 0's acquire timer expires. -/
def staleWaiterEvents : List Event :=
  [Event.acquireOp 1 0, Event.acquireOp 2 1, Event.timeoutOp 0]

/-- The pool just before the claim-violating second release of client 0 by
caller 1 (the first four steps of `doubleReleaseEvents`): client 0 is held
by caller 2 and caller 3 waits. -/
def c8Pre : PoolState :=
  run poolOfOne
    [Event.acquireOp 1 0, Event.releaseOp 1 0 1, Event.acquireOp 2 2, Event.acquireOp 3 3]

/-- A pool configured for 4 connections (cleanup floor 2) currently holding
3 idle connections, all last used at time 0. -/
def poolOfThreeStale : PoolState :=
  { config := { size := 4, databaseUrl := "", timeout := some 30000, idleTimeout := some 60000 }
    connections := [idleConnection 0, idleConnection 1, idleConnection 2]
    waitQueue := []
    initialized := true
    nextClientId := 3
    nextWaiterId := 0
    outcomes := [] }

/-- A pool of 2 idle (and 0 busy) connections, the scenario of the
`resize(0)` claim. -/
def poolOfTwoIdle : PoolState :=
  { config := { size := 2, databaseUrl := "", timeout := some 30000, idleTimeout := some 60000 }
    connections := [idleConnection 0, idleConnection 1]
    waitQueue := []
    initialized := true
    nextClientId := 2
    nextWaiterId := 0
    outcomes := [] }

/-- A pool whose sole connection's `$disconnect()` rejects. -/
def poolBadDisconnect : PoolState :=
  { config := defaultConfig
    connections := [{ clientId := 0, inUse := false, lastUsed := 0, createdAt := 0,
                      disconnectFails := true, holders := [] }]
    waitQueue := []
    initialized := true
    nextClientId := 1
    nextWaiterId := 0
    outcomes := [] }

/-- A pool with one well-behaved connection and one pending waiter, used to
exercise the `close()` postcondition. -/
def poolWithWaiter : PoolState :=
  { config := defaultConfig
    connections := [{ clientId := 0, inUse := true, lastUsed := 0, createdAt := 0,
                      disconnectFails := false, holders := [1] }]
    waitQueue := [{ id := 0, caller := 2, timestamp := 0 }]
    initialized := true
    nextClientId := 1
    nextWaiterId := 1
    outcomes := [] }

/-- A pool whose only connection is held by caller 1 while callers 2 and 3
wait (waiters 0 and 1, in enqueue order). -/
def poolTwoWaiters : PoolState :=
  { config := defaultConfig
    connections := [{ clientId := 0, inUse := true, lastUsed := 0, createdAt := 0,
                      disconnectFails := false, holders := [1] }]
    waitQueue := [{ id := 0, caller := 2, timestamp := 5 }, { id := 1, caller := 3, timestamp := 6 }]
    initialized := true
    nextClientId := 1
    nextWaiterId := 2
    outcomes := [] }

/-! ### Helper lemmas -/

theorem updateFirstClient_decomp {cid : Nat} {f : PoolConnection → PoolConnection} :
    ∀ {conns conns' : List PoolConnection},
      updateFirstClient cid f conns = some conns' →
      ∃ l1 c l2, conns = l1 ++ c :: l2 ∧ (∀ x ∈ l1, x.clientId ≠ cid) ∧
        c.clientId = cid ∧ conns' = l1 ++ f c :: l2 := by
  intro conns
  induction conns with
  | nil => intro conns' h; simp [updateFirstClient] at h
  | cons c rest ih =>
    intro conns' h
    by_cases hc : c.clientId = cid
    · rw [updateFirstClient, if_pos hc] at h
      exact ⟨[], c, rest, rfl, by simp, hc, by simpa using (Option.some.inj h).symm⟩
    · rw [updateFirstClient, if_neg hc] at h
      cases hrec : updateFirstClient cid f rest with
      | none => rw [hrec] at h; cases h
      | some rest' =>
        rw [hrec] at h
        obtain ⟨l1, c0, l2, hdec, hl1, hc0, hres⟩ := ih hrec
        refine ⟨c :: l1, c0, l2, by simp [hdec], ?_, hc0, ?_⟩
        · intro x hx
          rcases List.mem_cons.mp hx with rfl | hx
          · exact hc
          · exact hl1 x hx
        · have h' : c :: rest' = conns' := Option.some.inj h
          rw [← h', hres, List.cons_append]

theorem updateFirstClient_append {cid : Nat} {f : PoolConnection → PoolConnection}
    (l1 : List PoolConnection) {c : PoolConnection} (l2 : List PoolConnection)
    (hl1 : ∀ x ∈ l1, x.clientId ≠ cid) (hc : c.clientId = cid) :
    updateFirstClient cid f (l1 ++ c :: l2) = some (l1 ++ f c :: l2) := by
  induction l1 with
  | nil => simp [updateFirstClient, hc]
  | cons a l1 ih =>
    have ha : a.clientId ≠ cid := hl1 a (List.mem_cons_self a l1)
    have ih' := ih (fun x hx => hl1 x (List.mem_cons_of_mem a hx))
    simp only [List.cons_append]
    rw [updateFirstClient, if_neg ha, ih']

theorem updateFirstClient_none {cid : Nat} {f : PoolConnection → PoolConnection} :
    ∀ {conns : List PoolConnection}, (∀ x ∈ conns, x.clientId ≠ cid) →
      updateFirstClient cid f conns = none := by
  intro conns
  induction conns with
  | nil => intro _; rfl
  | cons c rest ih =>
    intro h
    rw [updateFirstClient, if_neg (h c (List.mem_cons_self c rest)),
      ih (fun x hx => h x (List.mem_cons_of_mem c hx))]

theorem find?_clientId_decomp {cid : Nat} :
    ∀ {conns : List PoolConnection} {c : PoolConnection},
      conns.find? (fun x => x.clientId == cid) = some c →
      ∃ l1 l2, conns = l1 ++ c :: l2 ∧ (∀ x ∈ l1, x.clientId ≠ cid) ∧ c.clientId = cid := by
  intro conns
  induction conns with
  | nil => intro c h; simp at h
  | cons a rest ih =>
    intro c h
    by_cases ha : a.clientId = cid
    · rw [List.find?_cons_of_pos _ (by simpa using ha)] at h
      obtain rfl : a = c := Option.some.inj h
      exact ⟨[], rest, (List.nil_append _).symm, by simp, ha⟩
    · rw [List.find?_cons_of_neg _ (by simpa using ha)] at h
      obtain ⟨l1, l2, hdec, hl1, hc⟩ := ih h
      refine ⟨a :: l1, l2, by simp [hdec], ?_, hc⟩
      intro x hx
      rcases List.mem_cons.mp hx with rfl | hx
      · exact ha
      · exact hl1 x hx

theorem find?_clientId_append (l1 : List PoolConnection) {c : PoolConnection}
    (l2 : List PoolConnection) (cid : Nat)
    (hl1 : ∀ x ∈ l1, x.clientId ≠ cid) (hc : c.clientId = cid) :
    (l1 ++ c :: l2).find? (fun x => x.clientId == cid) = some c := by
  induction l1 with
  | nil => simp [List.find?_cons_of_pos, hc]
  | cons a l1 ih =>
    have ha : a.clientId ≠ cid := hl1 a (List.mem_cons_self a l1)
    rw [List.cons_append, List.find?_cons_of_neg _ (by simpa using ha)]
    exact ih (fun x hx => hl1 x (List.mem_cons_of_mem a hx))

theorem grantFirstIdle_decomp {k now : Nat} :
    ∀ {conns conns' : List PoolConnection} {cid : Nat},
      grantFirstIdle k now conns = some (conns', cid) →
      ∃ l1 c l2, conns = l1 ++ c :: l2 ∧ (∀ x ∈ l1, x.inUse = true) ∧ c.inUse = false ∧
        cid = c.clientId ∧
        conns' = l1 ++ { c with inUse := true, lastUsed := now, holders := c.holders ++ [k] } :: l2 := by
  intro conns
  induction conns with
  | nil => intro conns' cid h; simp [grantFirstIdle] at h
  | cons c rest ih =>
    intro conns' cid h
    cases hu : c.inUse with
    | false =>
      rw [grantFirstIdle, if_neg (by simp [hu])] at h
      obtain ⟨h1, h2⟩ := Prod.mk.injEq .. ▸ (Option.some.inj h)
      exact ⟨[], c, rest, rfl, by simp, hu, h2.symm, by simp [h1.symm]⟩
    | true =>
      rw [grantFirstIdle, if_pos hu] at h
      cases hrec : grantFirstIdle k now rest with
      | none => rw [hrec] at h; cases h
      | some out =>
        obtain ⟨rest', cid'⟩ := out
        rw [hrec] at h
        obtain ⟨h1, h2⟩ := Prod.mk.injEq .. ▸ (Option.some.inj h)
        obtain ⟨l1, c0, l2, hdec, hl1, hc0, hcid, hres⟩ := ih hrec
        refine ⟨c :: l1, c0, l2, by simp [hdec], ?_, hc0, by rw [← h2, hcid], ?_⟩
        · intro x hx
          rcases List.mem_cons.mp hx with rfl | hx
          · exact hu
          · exact hl1 x hx
        · rw [← h1, hres, List.cons_append]

theorem grantFirstIdle_isSome (k now : Nat) :
    ∀ {conns : List PoolConnection}, (∃ c ∈ conns, c.inUse = false) →
      ∃ conns' cid, grantFirstIdle k now conns = some (conns', cid) := by
  intro conns
  induction conns with
  | nil => rintro ⟨c, hc, -⟩; cases hc
  | cons c rest ih =>
    rintro ⟨c0, hc0, hidle⟩
    cases hu : c.inUse with
    | false => exact ⟨_, _, by rw [grantFirstIdle, if_neg (by simp [hu])]⟩
    | true =>
      rcases List.mem_cons.mp hc0 with rfl | hc0
      · rw [hu] at hidle; cases hidle
      · obtain ⟨conns', cid, hrec⟩ := ih ⟨c0, hc0, hidle⟩
        exact ⟨_, _, by rw [grantFirstIdle, if_pos hu, hrec]⟩

theorem lookup_append_of_none {l2 : List (Nat × Outcome)} {k : Nat} :
    ∀ {l1 : List (Nat × Outcome)}, l1.lookup k = none →
      (l1 ++ l2).lookup k = l2.lookup k := by
  intro l1
  induction l1 with
  | nil => intro _; rfl
  | cons p rest ih =>
    intro h
    obtain ⟨a, b⟩ := p
    rw [List.cons_append]
    cases hp : k == a with
    | true => exact Option.noConfusion (by simpa only [List.lookup, hp] using h)
    | false =>
      simp only [List.lookup, hp] at h ⊢
      exact ih h

theorem lookup_map_poolClosing {k : Nat} :
    ∀ {l : List Waiter}, k ∈ l.map (fun w => w.id) →
      (l.map (fun w => (w.id, Outcome.poolClosing))).lookup k = some Outcome.poolClosing := by
  intro l
  induction l with
  | nil => intro h; cases h
  | cons w rest ih =>
    intro h
    rw [List.map_cons] at h
    rw [List.map_cons]
    cases hw : k == w.id with
    | true => simp only [List.lookup, hw]
    | false =>
      simp only [List.lookup, hw]
      apply ih
      rcases List.mem_cons.mp h with heq | h2
      · exfalso; rw [heq] at hw; simp at hw
      · exact h2

theorem holders_singleton {l : List Nat} {k : Nat}
    (hlen : l.length ≤ 1) (hk : k ∈ l) : l = [k] := by
  cases l with
  | nil => cases hk
  | cons a rest =>
    cases rest with
    | nil => rw [List.mem_singleton.mp hk]
    | cons b r => simp at hlen

theorem shrinkGo_subset :
    ∀ (fuel : Nat) (conns : List PoolConnection) (i removed toRemove : Nat),
      ∀ x ∈ shrinkGo fuel conns i removed toRemove, x ∈ conns := by
  intro fuel
  induction fuel with
  | zero => intro conns i removed toRemove x hx; simpa [shrinkGo] using hx
  | succ fuel ih =>
    intro conns i removed toRemove x hx
    rw [shrinkGo] at hx
    by_cases h : i < conns.length
    · rw [dif_pos h] at hx
      by_cases h1 : (conns.get ⟨i, h⟩).inUse = false ∧ removed < toRemove
      · rw [if_pos h1] at hx
        by_cases h2 : (conns.get ⟨i, h⟩).disconnectFails
        · rw [if_pos h2] at hx
          exact ih conns (i + 1) (removed + 1) toRemove x hx
        · rw [if_neg h2] at hx
          exact (List.eraseIdx_sublist conns i).subset
            (ih (conns.eraseIdx i) (i + 1) (removed + 1) toRemove x hx)
      · rw [if_neg h1] at hx
        exact ih conns (i + 1) removed toRemove x hx
    · rw [dif_neg h] at hx
      exact hx

theorem mem_newConnections {n firstId now : Nat} {c : PoolConnection}
    (h : c ∈ newConnections n firstId now) : c.inUse = false ∧ c.holders = [] := by
  simp only [newConnections, List.mem_map, List.mem_range] at h
  obtain ⟨i, -, rfl⟩ := h
  exact ⟨rfl, rfl⟩

theorem filter_length_middle (p : PoolConnection → Bool) (l1 l2 : List PoolConnection)
    (c c' : PoolConnection) (hpc : p c' = p c) :
    ((l1 ++ c' :: l2).filter p).length = ((l1 ++ c :: l2).filter p).length := by
  cases hp : p c with
  | true => simp [List.filter_append, List.filter_cons, hpc, hp]
  | false => simp [List.filter_append, List.filter_cons, hpc, hp]

/-! ### Preservation of the exclusive-ownership invariant -/

theorem ownerInv_step {st : PoolState} {e : Event}
    (h : ownerInv st) (hcr : compliantRelease st e = true) : ownerInv (step st e) := by
  cases e with
  | acquireOp k now =>
    simp only [step]
    cases hg : grantFirstIdle k now st.connections with
    | none => simp only [acquire, hg]; exact fun c hc => h c hc
    | some out =>
      obtain ⟨conns', cid⟩ := out
      obtain ⟨l1, c0, l2, hdec, hl1busy, hidle, hcid, hres⟩ := grantFirstIdle_decomp hg
      simp only [acquire, hg]
      intro c hc
      rw [hres] at hc
      rcases List.mem_append.mp hc with hcl | hcr2
      · exact h c (by rw [hdec]; exact List.mem_append.mpr (Or.inl hcl))
      · rcases List.mem_cons.mp hcr2 with rfl | hcl2
        · have h0 := h c0 (by rw [hdec]; exact List.mem_append.mpr (Or.inr (List.mem_cons_self _ _)))
          simp [h0.2 hidle]
        · exact h c (by rw [hdec]; exact List.mem_append.mpr (Or.inr (List.mem_cons_of_mem _ hcl2)))
  | timeoutOp wid =>
    intro c hc
    simp only [step, timeoutFire] at hc
    split at hc <;> exact h c hc
  | releaseOp k cid now =>
    simp only [step]
    have hall : ∀ c ∈ st.connections, c.clientId = cid → k ∈ c.holders := by
      intro c hcmem hcid2
      have hx := (List.all_eq_true.mp hcr) c hcmem
      simpa [hcid2] using hx
    have herase : ∀ c ∈ st.connections, c.clientId = cid → c.holders.erase k = [] := by
      intro c hcmem hcid2
      cases hu : c.inUse with
      | false => rw [(h c hcmem).2 hu]; rfl
      | true =>
        rw [holders_singleton (h c hcmem).1 (hall c hcmem hcid2)]
        exact List.erase_cons_head k []
    cases hq : st.waitQueue with
    | nil =>
      simp only [release, hq]
      cases hupd : updateFirstClient cid
          (fun c =>
            { c with
              inUse := false
              lastUsed := now
              holders := c.holders.erase k }) st.connections with
      | none => exact fun c hc => h c hc
      | some conns =>
        obtain ⟨l1, c0, l2, hdec, hl1, hc0, hres⟩ := updateFirstClient_decomp hupd
        intro c hc
        rw [hres] at hc
        have hmem0 : c0 ∈ st.connections := by
          rw [hdec]; exact List.mem_append.mpr (Or.inr (List.mem_cons_self _ _))
        rcases List.mem_append.mp hc with hcl | hcr2
        · exact h c (by rw [hdec]; exact List.mem_append.mpr (Or.inl hcl))
        · rcases List.mem_cons.mp hcr2 with rfl | hcl2
          · simp [herase c0 hmem0 hc0]
          · exact h c (by rw [hdec]; exact List.mem_append.mpr (Or.inr (List.mem_cons_of_mem _ hcl2)))
    | cons w rest =>
      simp only [release, hq]
      cases hupd : updateFirstClient cid
          (fun c =>
            { c with
              inUse := true
              lastUsed := now
              holders := c.holders.erase k ++
                (if outcomeOf st w.id = none then [w.caller] else []) }) st.connections with
      | none => exact fun c hc => h c hc
      | some conns =>
        obtain ⟨l1, c0, l2, hdec, hl1, hc0, hres⟩ := updateFirstClient_decomp hupd
        intro c hc
        rw [hres] at hc
        have hmem0 : c0 ∈ st.connections := by
          rw [hdec]; exact List.mem_append.mpr (Or.inr (List.mem_cons_self _ _))
        rcases List.mem_append.mp hc with hcl | hcr2
        · exact h c (by rw [hdec]; exact List.mem_append.mpr (Or.inl hcl))
        · rcases List.mem_cons.mp hcr2 with rfl | hcl2
          · constructor
            · by_cases ho : outcomeOf st w.id = none <;>
                simp [herase c0 hmem0 hc0, ho]
            · intro hfalse; simp at hfalse
          · exact h c (by rw [hdec]; exact List.mem_append.mpr (Or.inr (List.mem_cons_of_mem _ hcl2)))
  | cleanupOp now =>
    intro c hc
    simp only [step, cleanupPass] at hc
    split at hc
    · exact h c (List.mem_of_mem_filter hc)
    · exact h c hc
  | resizeOp n now =>
    simp only [step]
    by_cases hgrow : n > st.connections.length
    · simp only [resize, if_pos hgrow]
      intro c hc
      rcases List.mem_append.mp hc with hold | hnew
      · exact h c hold
      · have hn := mem_newConnections hnew
        exact ⟨by simp [hn.2], fun _ => hn.2⟩
    · by_cases hshrink : n < st.connections.length
      · simp only [resize, if_neg hgrow, if_pos hshrink]
        intro c hc
        exact h c (shrinkGo_subset _ _ _ _ _ c hc)
      · simp only [resize, if_neg hgrow, if_neg hshrink]
        exact fun c hc => h c hc
  | closeOp =>
    intro c hc
    simp only [step, closePool] at hc
    split at hc
    · simp at hc
    · exact h c hc

theorem ownerInv_run {st : PoolState} {es : List Event}
    (h : ownerInv st) (hc : compliantB st es = true) : ownerInv (run st es) := by
  induction es generalizing st with
  | nil => exact h
  | cons e es ih =>
    rw [compliantB, Bool.and_eq_true] at hc
    rw [run]
    exact ih (ownerInv_step h hc.1) hc.2

/-! ### The claims -/

/-- C1, counterexample.  The claim quantifies over every sequence of pool
operations, but a double release breaks it: starting from a well-formed
size-1 pool, caller 1 acquires and releases client 0, caller 2 re-acquires
it, caller 3 queues, and caller 1's second `release(0)` finds the record
(it is still pooled), marks it idle and immediately hands it to waiter 3 —
client 0 is now held by callers 2 and 3 simultaneously. -/
theorem c1_double_release_two_holders :
    ownerInv poolOfOne ∧
    (run poolOfOne doubleReleaseEvents).connections.map (fun c => c.holders) = [[2, 3]] ∧
    ¬ ownerInv (run poolOfOne doubleReleaseEvents) := by decide

/-- C1, amended.  For every sequence of pool operations in which each
`release()` is made by a caller currently holding the released handle,
exclusive ownership is preserved: every connection record is held by at
most one caller at a time, and an idle record is held by none — the pool
never hands the same record to two callers simultaneously. -/
theorem c1_exclusive_ownership (st : PoolState) (es : List Event)
    (h : ownerInv st) (hc : compliantB st es = true) : ownerInv (run st es) :=
  ownerInv_run h hc

/-- C1, witness: a compliant acquire/release round-trip preserves the
ownership invariant on a concrete pool. -/
theorem c1_exclusive_ownership_witness :
    ownerInv poolOfOne ∧
    compliantB poolOfOne [Event.acquireOp 1 0, Event.releaseOp 1 0 1] = true ∧
    ownerInv (run poolOfOne [Event.acquireOp 1 0, Event.releaseOp 1 0 1]) :=
  ⟨by decide, by decide, c1_exclusive_ownership poolOfOne _ (by decide) (by decide)⟩

/-- C2.  The claim says timer expiry removes the waiter from the queue; it
does not: the expiry callback's `findIndex(item => item.resolve === resolve)`
compares the executor's `resolve` with the stored wrapper and never matches,
so after waiter 0's timer fires the acquisition is rejected with the timeout
error (`outcomeOf = timedOut`) but `waiting` is still 1; the next `release`
then shifts the dead waiter and hands it the connection — the record stays
`inUse` (`active = 1`) with no holder, and the connection is lost. -/
theorem c2_timeout_leaves_waiter_queued :
    (getStatus (run poolOfOne staleWaiterEvents)).waiting = 1 ∧
    outcomeOf (run poolOfOne staleWaiterEvents) 0 = some Outcome.timedOut ∧
    (step (run poolOfOne staleWaiterEvents) (Event.releaseOp 1 0 2)).waitQueue = [] ∧
    outcomeOf (step (run poolOfOne staleWaiterEvents) (Event.releaseOp 1 0 2)) 0 =
      some Outcome.timedOut ∧
    (getStatus (step (run poolOfOne staleWaiterEvents) (Event.releaseOp 1 0 2))).active = 1 ∧
    (step (run poolOfOne staleWaiterEvents) (Event.releaseOp 1 0 2)).connections.map
      (fun c => c.holders) = [[]] := by decide

/-- C3, counterexample.  `release()` on a non-empty wait queue does not
always fulfil the oldest waiter with the released resource: a waiter whose
timer already expired is still in the queue (see C2), and when the release
hands it the connection its promise is already rejected, so the waiter's
acquisition outcome remains the timeout error, never a fulfilment. -/
theorem c3_stale_waiter_not_fulfilled :
    (run poolOfOne staleWaiterEvents).waitQueue.length = 1 ∧
    outcomeOf (run poolOfOne (staleWaiterEvents ++ [Event.releaseOp 1 0 2])) 0 =
      some Outcome.timedOut ∧
    outcomeOf (run poolOfOne (staleWaiterEvents ++ [Event.releaseOp 1 0 2])) 0 ≠
      some (Outcome.fulfilled 0) := by decide

/-- C3, amended.  When `release(cid)` runs on a pool that holds `cid` as a
busy record and whose wait queue is non-empty, the oldest (least-id) waiter
is dequeued and handed the resource, the record stays `inUse = true`,
`active` and `total` are unchanged, and — provided that waiter's promise is
still pending — its acquisition is fulfilled with the released client. -/
theorem c3_fifo_handoff (st : PoolState) (k cid now : Nat) (c : PoolConnection)
    (w : Waiter) (rest : List Waiter)
    (hq : st.waitQueue = w :: rest)
    (hfind : st.connections.find? (fun x => x.clientId == cid) = some c)
    (hbusy : c.inUse = true)
    (hsorted : List.Pairwise (fun a b => a < b) (queueIds st)) :
    (release k cid now st).2 = ReleaseResult.handedOff w.id ∧
    (release k cid now st).1.waitQueue = rest ∧
    (∀ w' ∈ rest, w.id < w'.id) ∧
    (∃ c', (release k cid now st).1.connections.find? (fun x => x.clientId == cid) = some c' ∧
      c'.inUse = true) ∧
    (getStatus (release k cid now st).1).active = (getStatus st).active ∧
    (getStatus (release k cid now st).1).total = (getStatus st).total ∧
    (outcomeOf st w.id = none →
      outcomeOf (release k cid now st).1 w.id = some (Outcome.fulfilled cid)) := by
  obtain ⟨l1, l2, hdec, hl1, hcid⟩ := find?_clientId_decomp hfind
  have hupd := updateFirstClient_append
      (f := fun c =>
        { c with
          inUse := true
          lastUsed := now
          holders := c.holders.erase k ++
            (if outcomeOf st w.id = none then [w.caller] else []) })
      l1 l2 hl1 hcid
  rw [← hdec] at hupd
  simp only [release, hq, hupd]
  have hmin : ∀ w' ∈ rest, w.id < w'.id := by
    rw [queueIds, hq, List.map_cons] at hsorted
    intro w' hw'
    exact (List.pairwise_cons.mp hsorted).1 w'.id (List.mem_map.mpr ⟨w', hw', rfl⟩)
  refine ⟨by trivial, by trivial, hmin,
    ⟨_, find?_clientId_append l1 l2 cid hl1 hcid, by trivial⟩, ?_, ?_, ?_⟩
  · simp only [getStatus]
    rw [hdec]
    exact filter_length_middle _ l1 l2 c _ (by simp [hbusy])
  · simp only [getStatus]
    rw [hdec]
    simp [List.length_append]
  · intro hpending
    rw [outcomeOf] at hpending ⊢
    rw [lookup_append_of_none hpending]
    simp [List.lookup]

/-- C3, witness: on a concrete pool with one busy connection and two
waiters, the release hands the connection to the older waiter. -/
theorem c3_fifo_handoff_witness :
    (release 1 0 9 poolTwoWaiters).2 = ReleaseResult.handedOff 0 ∧
    (release 1 0 9 poolTwoWaiters).1.waitQueue = [{ id := 1, caller := 3, timestamp := 6 }] ∧
    (getStatus (release 1 0 9 poolTwoWaiters).1).active = (getStatus poolTwoWaiters).active ∧
    outcomeOf (release 1 0 9 poolTwoWaiters).1 0 = some (Outcome.fulfilled 0) :=
  ⟨(c3_fifo_handoff poolTwoWaiters 1 0 9
      { clientId := 0, inUse := true, lastUsed := 0, createdAt := 0,
        disconnectFails := false, holders := [1] }
      { id := 0, caller := 2, timestamp := 5 } [{ id := 1, caller := 3, timestamp := 6 }]
      (by decide) (by decide) (by decide) (by decide)).1,
   (c3_fifo_handoff poolTwoWaiters 1 0 9
      { clientId := 0, inUse := true, lastUsed := 0, createdAt := 0,
        disconnectFails := false, holders := [1] }
      { id := 0, caller := 2, timestamp := 5 } [{ id := 1, caller := 3, timestamp := 6 }]
      (by decide) (by decide) (by decide) (by decide)).2.1,
   (c3_fifo_handoff poolTwoWaiters 1 0 9
      { clientId := 0, inUse := true, lastUsed := 0, createdAt := 0,
        disconnectFails := false, holders := [1] }
      { id := 0, caller := 2, timestamp := 5 } [{ id := 1, caller := 3, timestamp := 6 }]
      (by decide) (by decide) (by decide) (by decide)).2.2.2.2.1,
   (c3_fifo_handoff poolTwoWaiters 1 0 9
      { clientId := 0, inUse := true, lastUsed := 0, createdAt := 0,
        disconnectFails := false, holders := [1] }
      { id := 0, caller := 2, timestamp := 5 } [{ id := 1, caller := 3, timestamp := 6 }]
      (by decide) (by decide) (by decide) (by decide)).2.2.2.2.2.2 (by decide)⟩

/-- C4.  One cleanup pass on a size-4 pool (floor `4 / 2 = 2`) holding 3
idle stale connections removes all 3, leaving `total = 0 < 2`: the
un-awaited `removeConnection` defers every splice past the loop, so the
`connections.length > floor(size/2)` guard always sees the stale pre-pass
length 3 and approves every removal. -/
theorem c4_cleanup_floor_violated :
    poolOfThreeStale.config.size / 2 = 2 ∧
    (getStatus poolOfThreeStale).total = 3 ∧
    (getStatus (cleanupPass 70000 poolOfThreeStale)).total = 0 := by decide

/-- C5.  `resize(0)` on a pool with exactly 2 idle and 0 busy connections
leaves `total = 1`, not 0: the shrink loop splices the array it iterates
with `for...of`, so after removing the first idle connection the iterator
skips the element that slid into its place. -/
theorem c5_resize_skips_second_idle :
    (getStatus poolOfTwoIdle).idle = 2 ∧ (getStatus poolOfTwoIdle).active = 0 ∧
    (getStatus (resize 0 99 poolOfTwoIdle)).total = 1 := by decide

/-- C6, counterexample.  A destruction failure in `close()` is not
swallowed: on a pool whose only connection's `$disconnect()` rejects,
`Promise.all` rejects, `close()` throws (flag `false`), `total` stays 1 and
`initialized` stays `true`. -/
theorem c6_close_propagates_disconnect_failure :
    (closePool poolBadDisconnect).2 = false ∧
    (getStatus (closePool poolBadDisconnect).1).total = 1 ∧
    (closePool poolBadDisconnect).1.initialized = true := by decide

/-- C6, amended.  `close()` always rejects every still-pending queued
waiter with the pool-closing error and empties the wait queue; when every
disconnect succeeds it returns normally with `total = 0` and
`initialized = false`, but when any disconnect fails the failure propagates
out of `close()` and the connection list is left untouched. -/
theorem c6_close_postcondition (st : PoolState) :
    (closePool st).1.waitQueue = [] ∧
    (∀ w ∈ st.waitQueue, outcomeOf st w.id = none →
      outcomeOf (closePool st).1 w.id = some Outcome.poolClosing) ∧
    ((∀ c ∈ st.connections, c.disconnectFails = false) →
      (closePool st).2 = true ∧ (getStatus (closePool st).1).total = 0 ∧
      (closePool st).1.initialized = false) ∧
    ((∃ c ∈ st.connections, c.disconnectFails = true) →
      (closePool st).2 = false ∧ (closePool st).1.connections = st.connections) := by
  have houtcome : ∀ w ∈ st.waitQueue, outcomeOf st w.id = none →
      (st.outcomes ++ st.waitQueue.map (fun w => (w.id, Outcome.poolClosing))).lookup w.id =
        some Outcome.poolClosing := by
    intro w hw hnone
    rw [lookup_append_of_none hnone]
    exact lookup_map_poolClosing (List.mem_map.mpr ⟨w, hw, rfl⟩)
  cases hd : st.connections.all (fun c => !c.disconnectFails) with
  | true =>
    have hclose : closePool st =
        ({ st with
            waitQueue := []
            outcomes := st.outcomes ++ st.waitQueue.map (fun w => (w.id, Outcome.poolClosing))
            connections := []
            initialized := false }, true) := by
      simp [closePool, hd]
    rw [hclose]
    refine ⟨rfl, ?_, fun _ => ⟨rfl, rfl, rfl⟩, ?_⟩
    · intro w hw hnone
      exact houtcome w hw hnone
    · rintro ⟨c, hc, hfail⟩
      have hx := List.all_eq_true.mp hd c hc
      rw [hfail] at hx
      cases hx
  | false =>
    have hclose : closePool st =
        ({ st with
            waitQueue := []
            outcomes := st.outcomes ++
              st.waitQueue.map (fun w => (w.id, Outcome.poolClosing)) }, false) := by
      simp [closePool, hd]
    rw [hclose]
    refine ⟨rfl, ?_, ?_, fun _ => ⟨rfl, rfl⟩⟩
    · intro w hw hnone
      exact houtcome w hw hnone
    · intro hgood
      exfalso
      have hx : st.connections.all (fun c => !c.disconnectFails) = true :=
        List.all_eq_true.mpr (fun c hc => by rw [hgood c hc]; rfl)
      rw [hd] at hx
      cases hx

/-- C6, witness: closing a concrete pool with one pending waiter and one
well-behaved connection rejects the waiter and empties the pool. -/
theorem c6_close_postcondition_witness :
    (closePool poolWithWaiter).1.waitQueue = [] ∧
    outcomeOf (closePool poolWithWaiter).1 0 = some Outcome.poolClosing ∧
    (closePool poolWithWaiter).2 = true ∧
    (getStatus (closePool poolWithWaiter).1).total = 0 ∧
    (closePool poolWithWaiter).1.initialized = false :=
  ⟨(c6_close_postcondition poolWithWaiter).1,
   (c6_close_postcondition poolWithWaiter).2.1
     { id := 0, caller := 2, timestamp := 0 } (by decide) (by decide),
   ((c6_close_postcondition poolWithWaiter).2.2.1 (by decide)).1,
   ((c6_close_postcondition poolWithWaiter).2.2.1 (by decide)).2.1,
   ((c6_close_postcondition poolWithWaiter).2.2.1 (by decide)).2.2⟩

/-- C7, counterexample.  A failing live probe is just one more error entry:
on an initialized pool with one idle connection and an empty queue, a
failed probe yields the single error `"Connection test failed"`, so
`healthCheck` classifies the pool `degraded`, not `unhealthy` as the claim
requires for a probe failure. -/
theorem c7_probe_failure_only_degraded :
    (healthCheck poolOfOne false).1 = HealthStatus.degraded ∧
    (healthCheck poolOfOne false).2 = ["Connection test failed"] ∧
    HealthStatus.degraded ≠ HealthStatus.unhealthy := by decide

/-- C7, amended.  `healthCheck` (a total function — it never throws)
classifies purely by the number of accumulated errors, the probe failure
counting as an ordinary entry: `healthy` iff no error, `degraded` iff 1-2
errors, `unhealthy` iff at least 3 errors. -/
theorem c7_classification (st : PoolState) (probeOk : Bool) :
    ((healthCheck st probeOk).1 = HealthStatus.healthy ↔
      (healthCheck st probeOk).2.length = 0) ∧
    ((healthCheck st probeOk).1 = HealthStatus.degraded ↔
      (1 ≤ (healthCheck st probeOk).2.length ∧ (healthCheck st probeOk).2.length ≤ 2)) ∧
    ((healthCheck st probeOk).1 = HealthStatus.unhealthy ↔
      3 ≤ (healthCheck st probeOk).2.length) := by
  simp only [healthCheck]
  by_cases h0 : (healthErrors st probeOk).length = 0
  · simp [h0]
  · by_cases h2 : (healthErrors st probeOk).length ≤ 2
    · simp only [if_neg h0, if_pos h2]
      refine ⟨by simp [h0], by simp; omega, by simp; omega⟩
    · simp only [if_neg h0, if_neg h2]
      refine ⟨by simp [h0], by simp; omega, by simp; omega⟩

/-- C7, witness: the classification at a concrete healthy pool. -/
theorem c7_classification_witness :
    (healthCheck poolOfOne true).1 = HealthStatus.healthy ↔
      (healthCheck poolOfOne true).2.length = 0 :=
  (c7_classification poolOfOne true).1

/-- C8, counterexample.  A second `release()` of a handle the pool still
tracks is not the warned no-op the claim describes: on a pool where the
twice-released client 0 is held by caller 2 and caller 3 waits, the second
release finds the record, does not warn, hands the client to waiter 3, and
`getStatus()` changes (`waiting` drops from 1 to 0). -/
theorem c8_second_release_hands_off_again :
    (release 1 0 4 c8Pre).2 = ReleaseResult.handedOff 0 ∧
    (release 1 0 4 c8Pre).2 ≠ ReleaseResult.unknownWarned ∧
    getStatus c8Pre = { total := 1, active := 1, idle := 0, waiting := 1 } ∧
    getStatus (release 1 0 4 c8Pre).1 =
      { total := 1, active := 1, idle := 0, waiting := 0 } := by decide

/-- C8, amended.  `release()` on a handle the pool does not hold logs a
warning, never throws, and leaves the state (hence `getStatus()`)
unchanged; `release()` on an already-released handle still in the pool does
not warn and, when the wait queue is empty, leaves `getStatus()` unchanged
(with a non-empty queue it instead hands the connection to the oldest
waiter — see the counterexample). -/
theorem c8_release_unknown_or_idle_noop (st : PoolState) (k cid now : Nat) :
    (st.connections.find? (fun x => x.clientId == cid) = none →
      release k cid now st = (st, ReleaseResult.unknownWarned)) ∧
    (∀ c, st.connections.find? (fun x => x.clientId == cid) = some c → c.inUse = false →
      st.waitQueue = [] →
      getStatus (release k cid now st).1 = getStatus st ∧
      (release k cid now st).2 = ReleaseResult.markedIdle) := by
  constructor
  · intro hnone
    have hnot : ∀ x ∈ st.connections, x.clientId ≠ cid := by
      intro x hx
      have := List.find?_eq_none.mp hnone x hx
      simpa using this
    cases hq : st.waitQueue with
    | nil => simp [release, hq, updateFirstClient_none hnot]
    | cons w rest => simp [release, hq, updateFirstClient_none hnot]
  · intro c hfind hidle hq
    obtain ⟨l1, l2, hdec, hl1, hcid⟩ := find?_clientId_decomp hfind
    have hupd := updateFirstClient_append
        (f := fun c =>
          { c with
            inUse := false
            lastUsed := now
            holders := c.holders.erase k })
        l1 l2 hl1 hcid
    rw [← hdec] at hupd
    simp only [release, hq, hupd]
    refine ⟨?_, by trivial⟩
    simp only [getStatus, PoolStatus.mk.injEq]
    refine ⟨?_, ?_, ?_, by rw [hq]⟩
    · rw [hdec]; simp [List.length_append]
    · rw [hdec]; exact filter_length_middle _ l1 l2 c _ (by simp [hidle])
    · rw [hdec]; exact filter_length_middle _ l1 l2 c _ (by simp [hidle])

/-- C8, witness: releasing an unknown handle is an exact no-op, and a
second release of an idle handle with an empty queue leaves the status
unchanged. -/
theorem c8_release_unknown_or_idle_noop_witness :
    release 9 5 7 poolOfOne = (poolOfOne, ReleaseResult.unknownWarned) ∧
    getStatus (release 9 0 7 poolOfOne).1 = getStatus poolOfOne ∧
    (release 9 0 7 poolOfOne).2 = ReleaseResult.markedIdle :=
  ⟨(c8_release_unknown_or_idle_noop poolOfOne 9 5 7).1 (by decide),
   ((c8_release_unknown_or_idle_noop poolOfOne 9 0 7).2
     (idleConnection 0) (by decide) (by decide) (by decide)).1,
   ((c8_release_unknown_or_idle_noop poolOfOne 9 0 7).2
     (idleConnection 0) (by decide) (by decide) (by decide)).2⟩

/-- C9.  On the synchronous-grant path (some connection idle; the wait
queue empty so the hand-off branch is not taken) `execute(fn)` acquires a
client, runs `fn`, and releases the client on both exit paths: the result
is `fn`'s value on success (`ExecResult.ok` tagged with the client) and the
propagated error when `fn` throws — in both cases delivered only after the
release has run, so the acquired connection is idle again and `getStatus()`
is exactly what it was before the call. -/
theorem c9_execute_always_releases (st : PoolState) (k now : Nat) (fnOk : Bool)
    (hnodup : (st.connections.map (fun c => c.clientId)).Nodup)
    (hidle : ∃ c ∈ st.connections, c.inUse = false)
    (hqueue : st.waitQueue = []) :
    ∃ st' cid,
      execute k now fnOk st = some (st', if fnOk then ExecResult.ok cid else ExecResult.opFailed) ∧
      getStatus st' = getStatus st ∧
      ∃ c' ∈ st'.connections, c'.clientId = cid ∧ c'.inUse = false := by
  obtain ⟨conns1, cid, hg⟩ := grantFirstIdle_isSome k now hidle
  obtain ⟨l1, c0, l2, hdec, hl1busy, hidle0, hcid, hres⟩ := grantFirstIdle_decomp hg
  have hl1id : ∀ x ∈ l1, x.clientId ≠ c0.clientId := by
    intro x hx heq
    rw [hdec, List.map_append, List.map_cons] at hnodup
    exact (List.nodup_append.mp hnodup).2.2 (List.mem_map.mpr ⟨x, hx, heq⟩)
      (heq ▸ List.mem_cons_self _ _)
  have hupd := updateFirstClient_append
      (f := fun c =>
        { c with
          inUse := false
          lastUsed := now
          holders := c.holders.erase k })
      (c := { c0 with inUse := true, lastUsed := now, holders := c0.holders ++ [k] })
      l1 l2 hl1id rfl
  refine ⟨{ st with connections := l1 ++
      { clientId := c0.clientId, inUse := false, lastUsed := now, createdAt := c0.createdAt,
        disconnectFails := c0.disconnectFails,
        holders := (c0.holders ++ [k]).erase k } :: l2 },
    cid, ?_, ?_, ?_⟩
  · simp only [execute, acquire, hg, release, hqueue, hres, hcid, hupd]
  · simp only [getStatus, PoolStatus.mk.injEq]
    refine ⟨?_, ?_, ?_, by trivial⟩
    · rw [hdec]; simp [List.length_append]
    · rw [hdec]; exact filter_length_middle _ l1 l2 c0 _ (by simp [hidle0])
    · rw [hdec]; exact filter_length_middle _ l1 l2 c0 _ (by simp [hidle0])
  · exact ⟨_, List.mem_append.mpr (Or.inr (List.mem_cons_self _ _)), hcid.symm ▸ rfl, rfl⟩

/-- C9, witness: `execute` on a concrete one-connection pool, for both a
succeeding and (via `fnOk = true` here and the theorem's generality over
`fnOk`) the instantiated success path, restores the pool status. -/
theorem c9_execute_always_releases_witness :
    ∃ st' cid,
      execute 4 8 true poolOfOne =
        some (st', if true then ExecResult.ok cid else ExecResult.opFailed) ∧
      getStatus st' = getStatus poolOfOne ∧
      ∃ c' ∈ st'.connections, c'.clientId = cid ∧ c'.inUse = false :=
  c9_execute_always_releases poolOfOne 4 8 true (by decide) (by decide) (by decide)

/-- C10.  The constructor replaces a falsy (`undefined` or `0`) `timeout`
with 30000 and a falsy `idleTimeout` with 60000 — an explicitly configured
0 is silently overridden — while any non-zero configured value is kept. -/
theorem c10_falsy_timeout_defaults (cfg : Config) :
    ((cfg.timeout = none ∨ cfg.timeout = some 0) →
      (mkConnectionPool cfg).config.timeout = some 30000) ∧
    ((cfg.idleTimeout = none ∨ cfg.idleTimeout = some 0) →
      (mkConnectionPool cfg).config.idleTimeout = some 60000) ∧
    (∀ t, cfg.timeout = some t → t ≠ 0 → (mkConnectionPool cfg).config.timeout = some t) ∧
    (∀ t, cfg.idleTimeout = some t → t ≠ 0 →
      (mkConnectionPool cfg).config.idleTimeout = some t) := by
  refine ⟨?_, ?_, ?_, ?_⟩
  · rintro (h | h) <;> simp [mkConnectionPool, jsOr, h]
  · rintro (h | h) <;> simp [mkConnectionPool, jsOr, h]
  · intro t ht hne; simp [mkConnectionPool, jsOr, ht, hne]
  · intro t ht hne; simp [mkConnectionPool, jsOr, ht, hne]

/-- C10, witness: a configured 0 for either timeout is overridden by the
default. -/
theorem c10_falsy_timeout_defaults_witness :
    (mkConnectionPool
      { size := 1, databaseUrl := "", timeout := some 0, idleTimeout := some 0 }).config.timeout =
      some 30000 ∧
    (mkConnectionPool
      { size := 1, databaseUrl := "",
        timeout := some 0, idleTimeout := some 0 }).config.idleTimeout = some 60000 :=
  ⟨(c10_falsy_timeout_defaults _).1 (Or.inr rfl),
   (c10_falsy_timeout_defaults _).2.1 (Or.inr rfl)⟩

end ConnectionPool
